import Mathlib

/-!
A verification development for the proxy-browser repository.

The repository launches a browser through an automation library and
optionally persists the session storage snapshot to a JSON file.  Two
variants exist in the sources:

* `src/index.js` ("direct variant"): a periodic timer writes the snapshot
  straight to the file every 5 seconds (`context.storageState({ path })`),
  and the SIGINT/SIGTERM handler performs one more direct write and exits.

* `src/unnamed/part_000`, second program ("caching variant"): a periodic
  timer refreshes an in-memory cache (`cachedStorageState`), and the
  shutdown / disconnect paths flush the cache to the file with
  `writeFileSync(name, JSON.stringify(state, null, 2))`, close the
  browser and exit.

This file embeds, from those sources:

* the snapshot data model as a JSON value tree (`Json`), together with an
  executable model of the platform's `JSON.stringify(x, null, 2)`
  (`stringify`) and of `JSON.parse` (`jsonParse`).  Strings are lists of
  characters; JSON numbers are modelled as integers (snapshot numbers are
  treated as opaque integral values; IEEE doubles are out of scope).
* the command-line token handling, engine selection and storage file
  naming of both variants (`browserTypeOf`, `selectEngine`,
  `storageFileName`).
* the startup load paths of both variants (`loadIfPresent` for the
  caching variant, `loadIndexStartup` for the direct variant).
* a small-step event machine for the runtime behaviour: timer ticks,
  signal delivery, the browser `disconnected` event, and resolution of
  pending asynchronous operations (`Sys`, `run`, `execEv`, `execEvs`),
  instantiated with the literal handler bodies of both variants.
-/

/-! ## JSON values

Snapshot objects, as produced by the automation library and serialized by
`JSON.stringify` in `src/unnamed/part_000` (writeStorageToFile).  The
mutual list types make mutual structural induction straightforward. -/

mutual

inductive Json where
  | null : Json
  | bool (b : Bool) : Json
  | num (i : Int) : Json
  | str (s : List Char) : Json
  | arr (elems : JsonList) : Json
  | obj (fields : JsonFields) : Json

inductive JsonList where
  | nil : JsonList
  | cons (hd : Json) (tl : JsonList) : JsonList

inductive JsonFields where
  | nil : JsonFields
  | cons (key : List Char) (val : Json) (tl : JsonFields) : JsonFields

end

/-- JavaScript truthiness on a JSON value (`if (cachedStorageState)` in
`writeStorageToFile`): `null`, `false`, `0` and the empty string are
falsy, everything else is truthy. -/
def truthy : Json → Bool
  | .null => false
  | .bool b => b
  | .num i => decide (i ≠ 0)
  | .str s => decide (s ≠ [])
  | .arr _ => true
  | .obj _ => true

/-! ## Decimal digits -/

/-- One decimal/hex digit character (reusing the core digit table). -/
def digChar (d : Nat) : Char := Nat.digitChar d

/-- Decimal digit test on a character, by code point. -/
def isDig (c : Char) : Bool := 48 ≤ c.toNat && c.toNat ≤ 57

/-- Numeric value of a decimal digit character. -/
def digVal (c : Char) : Nat := c.toNat - 48

/-- The decimal digit characters of `n`, most significant first, as
`String(n)` / `JSON.stringify(n)` print a non-negative integer. -/
def natChars (n : Nat) : List Char :=
  if n = 0 then ['0'] else ((Nat.digits 10 n).map digChar).reverse

/-- The characters `JSON.stringify` prints for an integer. -/
def intChars : Int → List Char
  | .ofNat n => natChars n
  | .negSucc m => '-' :: natChars (m + 1)

/-! ## String escaping (JSON.stringify) -/

/-- The escape sequence `JSON.stringify` emits for one character inside a
string literal. -/
def escChar (c : Char) : List Char :=
  if c = '"' then ['\\', '"']
  else if c = '\\' then ['\\', '\\']
  else if c = '\x08' then ['\\', 'b']
  else if c = '\x0c' then ['\\', 'f']
  else if c = '\n' then ['\\', 'n']
  else if c = '\r' then ['\\', 'r']
  else if c = '\t' then ['\\', 't']
  else if c.toNat < 32 then
    ['\\', 'u', '0', '0', digChar (c.toNat / 16), digChar (c.toNat % 16)]
  else [c]

/-- Escape a whole string body. -/
def escStr (s : List Char) : List Char :=
  s.foldr (fun c acc => escChar c ++ acc) []

/-! ## Pretty serialization: JSON.stringify(value, null, 2)

`writeStorageToFile` in `src/unnamed/part_000` serializes the cached
snapshot with `JSON.stringify(cachedStorageState, null, 2)`; the
two-space gap and line breaks follow the ECMA-262 algorithm. -/

/-- The two-space indentation gap passed as the third stringify argument. -/
def gap : List Char := [' ', ' ']

/-- The keyword `null` as characters. -/
def nullChars : List Char := ['n', 'u', 'l', 'l']

/-- The keyword `true` as characters. -/
def trueChars : List Char := ['t', 'r', 'u', 'e']

/-- The keyword `false` as characters. -/
def falseChars : List Char := ['f', 'a', 'l', 's', 'e']

mutual

/-- Serialization `JSON.stringify(v, null, 2)` at current indentation `ind`. -/
def stringify (ind : List Char) : Json → List Char
  | .null => nullChars
  | .bool true => trueChars
  | .bool false => falseChars
  | .num i => intChars i
  | .str s => '"' :: (escStr s ++ ['"'])
  | .arr .nil => ['[', ']']
  | .arr (.cons h t) =>
      '[' :: '\n' :: ((ind ++ gap) ++ stringify (ind ++ gap) h
        ++ stringifyItems (ind ++ gap) t ++ '\n' :: (ind ++ [']']))
  | .obj .nil => ['{', '}']
  | .obj (.cons k v t) =>
      '{' :: '\n' :: ((ind ++ gap) ++ '"' :: (escStr k
        ++ '"' :: ':' :: ' ' :: (stringify (ind ++ gap) v
          ++ stringifyFields (ind ++ gap) t ++ '\n' :: (ind ++ ['}']))))

/-- Remaining array elements, each preceded by `",\n" ++ ind2`. -/
def stringifyItems (ind2 : List Char) : JsonList → List Char
  | .nil => []
  | .cons h t => ',' :: '\n' :: (ind2 ++ stringify ind2 h ++ stringifyItems ind2 t)

/-- Remaining object fields, each preceded by `",\n" ++ ind2`. -/
def stringifyFields (ind2 : List Char) : JsonFields → List Char
  | .nil => []
  | .cons k v t =>
      ',' :: '\n' :: (ind2 ++ '"' :: (escStr k
        ++ '"' :: ':' :: ' ' :: (stringify ind2 v ++ stringifyFields ind2 t)))

end

/-- Top-level serialization, as written to the snapshot file. -/
def jsonStringify (v : Json) : List Char := stringify [] v

/-! ## Parsing: JSON.parse

Startup in both variants parses the snapshot file with `JSON.parse`
(directly in the caching variant's `main`; inside the automation library
for the direct variant when a `storageState` path is supplied).  The
model is a recursive-descent parser over the JSON grammar restricted to
the values of `Json` (integer numbers). -/

/-- JSON insignificant whitespace. -/
def isWs (c : Char) : Bool :=
  if c = ' ' then true
  else if c = '\n' then true
  else if c = '\t' then true
  else if c = '\r' then true
  else false

/-- Drop leading whitespace. -/
def skipWs : List Char → List Char
  | [] => []
  | c :: rest => if isWs c then skipWs rest else c :: rest

/-- Value of a hexadecimal digit character, if any. -/
def hexVal (c : Char) : Option Nat :=
  if 48 ≤ c.toNat && c.toNat ≤ 57 then some (c.toNat - 48)
  else if 97 ≤ c.toNat && c.toNat ≤ 102 then some (c.toNat - 87)
  else if 65 ≤ c.toNat && c.toNat ≤ 70 then some (c.toNat - 55)
  else none

/-- Prepend a character to the string being accumulated by
`parseStringBody`. -/
def mapCons (c : Char) : Option (List Char × List Char) → Option (List Char × List Char)
  | some (s, r) => some (c :: s, r)
  | none => none

/-- Parse the body of a JSON string literal after the opening quote,
returning the unescaped contents and the remaining input after the
closing quote. -/
def parseStringBody : List Char → Option (List Char × List Char)
  | [] => none
  | c :: rest =>
    if c = '"' then some ([], rest)
    else if c = '\\' then
      match rest with
      | [] => none
      | e :: rest2 =>
        if e = '"' then mapCons '"' (parseStringBody rest2)
        else if e = '\\' then mapCons '\\' (parseStringBody rest2)
        else if e = '/' then mapCons '/' (parseStringBody rest2)
        else if e = 'b' then mapCons '\x08' (parseStringBody rest2)
        else if e = 'f' then mapCons '\x0c' (parseStringBody rest2)
        else if e = 'n' then mapCons '\n' (parseStringBody rest2)
        else if e = 'r' then mapCons '\r' (parseStringBody rest2)
        else if e = 't' then mapCons '\t' (parseStringBody rest2)
        else if e = 'u' then
          match rest2 with
          | h1 :: h2 :: h3 :: h4 :: rest3 =>
            match hexVal h1, hexVal h2, hexVal h3, hexVal h4 with
            | some a, some b, some c2, some d =>
                mapCons (Char.ofNat (((a * 16 + b) * 16 + c2) * 16 + d))
                  (parseStringBody rest3)
            | _, _, _, _ => none
          | _ => none
        else none
    else if c.toNat < 32 then none
    else mapCons c (parseStringBody rest)

/-- Accumulate decimal digits. -/
def parseNatAux (acc : Nat) : List Char → Nat × List Char
  | [] => (acc, [])
  | c :: rest => if isDig c then parseNatAux (acc * 10 + digVal c) rest else (acc, c :: rest)

/-- Parse a JSON integer number. -/
def parseNum : List Char → Option (Int × List Char)
  | [] => none
  | c :: rest =>
    if c = '-' then
      match rest with
      | [] => none
      | c2 :: _ =>
        if isDig c2 then
          match parseNatAux 0 rest with
          | (n, r) => some (-(n : Int), r)
        else none
    else if isDig c then
      match parseNatAux 0 (c :: rest) with
      | (n, r) => some ((n : Int), r)
    else none

/-- Expect a literal tail (the `ull` of `null`, etc.). -/
def expectLit : List Char → List Char → Json → Option (Json × List Char)
  | [], s, v => some (v, s)
  | _ :: _, [], _ => none
  | c :: cs, d :: ds, v => if c = d then expectLit cs ds v else none

mutual

/-- Parse one JSON value (fuelled recursive descent). -/
def pVal : Nat → List Char → Option (Json × List Char)
  | 0, _ => none
  | fuel + 1, s =>
    match skipWs s with
    | [] => none
    | c :: rest =>
      if c = 'n' then expectLit ['u', 'l', 'l'] rest .null
      else if c = 't' then expectLit ['r', 'u', 'e'] rest (.bool true)
      else if c = 'f' then expectLit ['a', 'l', 's', 'e'] rest (.bool false)
      else if c = '"' then
        match parseStringBody rest with
        | some (a, r) => some (.str a, r)
        | none => none
      else if c = '[' then
        match skipWs rest with
        | [] => none
        | c2 :: r2 =>
          if c2 = ']' then some (.arr .nil, r2)
          else
            match pItems fuel (c2 :: r2) with
            | some (l, r) => some (.arr l, r)
            | none => none
      else if c = '{' then
        match skipWs rest with
        | [] => none
        | c2 :: r2 =>
          if c2 = '}' then some (.obj .nil, r2)
          else
            match pFields fuel (c2 :: r2) with
            | some (l, r) => some (.obj l, r)
            | none => none
      else
        match parseNum (c :: rest) with
        | some (i, r) => some (.num i, r)
        | none => none

/-- Parse a non-empty comma-separated element list up to `]`. -/
def pItems : Nat → List Char → Option (JsonList × List Char)
  | 0, _ => none
  | fuel + 1, s =>
    match pVal fuel s with
    | none => none
    | some (v, r) =>
      match skipWs r with
      | [] => none
      | c :: r2 =>
        if c = ',' then
          match pItems fuel r2 with
          | some (l, r3) => some (.cons v l, r3)
          | none => none
        else if c = ']' then some (.cons v .nil, r2)
        else none

/-- Parse a non-empty comma-separated field list up to `}`. -/
def pFields : Nat → List Char → Option (JsonFields × List Char)
  | 0, _ => none
  | fuel + 1, s =>
    match skipWs s with
    | [] => none
    | c :: r0 =>
      if c = '"' then
        match parseStringBody r0 with
        | none => none
        | some (k, r1) =>
          match skipWs r1 with
          | [] => none
          | c1 :: r2 =>
            if c1 = ':' then
              match pVal fuel r2 with
              | none => none
              | some (v, r3) =>
                match skipWs r3 with
                | [] => none
                | c2 :: r4 =>
                  if c2 = ',' then
                    match pFields fuel r4 with
                    | some (l, r5) => some (.cons k v l, r5)
                    | none => none
                  else if c2 = '}' then some (.cons k v .nil, r4)
                  else none
            else none
      else none

end

/-- Model of `JSON.parse`: parse a whole document, rejecting trailing garbage.
The fuel `length + 1` dominates the size of any value the input can
denote. -/
def jsonParse (s : List Char) : Option Json :=
  match pVal (s.length + 1) s with
  | some (v, r) =>
    match skipWs r with
    | [] => some v
    | _ :: _ => none
  | none => none

/-! ## Sizes, for fuel accounting -/

mutual

/-- Parser fuel needed for a value. -/
def szV : Json → Nat
  | .arr (.cons h t) => 1 + szI h t
  | .obj (.cons k v t) => 1 + szF k v t
  | _ => 1
termination_by v => sizeOf v

/-- Parser fuel needed for a non-empty element list. -/
def szI : Json → JsonList → Nat
  | h, .nil => 1 + szV h
  | h, .cons h2 t2 => 1 + szV h + szI h2 t2
termination_by h t => sizeOf h + sizeOf t

/-- Parser fuel needed for a non-empty field list. -/
def szF : List Char → Json → JsonFields → Nat
  | _, v, .nil => 1 + szV v
  | _, v, .cons k2 v2 t2 => 1 + szV v + szF k2 v2 t2
termination_by _ v t => sizeOf v + sizeOf t

end

/-! ## Command-line token handling and snapshot file naming

From `main` in `src/index.js` (lines 62-90) and the caching variant
(lines 144-176 of `src/unnamed/part_000`):

```js
const args = process.argv.slice(2).filter((arg) => !arg.startsWith('--'));
const browserType = (args[0] || 'safari').toLowerCase();
switch (browserType) { case 'chrome': case 'chromium': ... }
const withStorage = process.argv.includes('--with-storage');
const storageFileName = `storage-state-${browserType}.json`;
```
-/

/-- The three engine variants of the automation library. -/
inductive Engine where
  | chromium : Engine
  | firefox : Engine
  | webkit : Engine
deriving DecidableEq

def chromeTok : List Char := ['c', 'h', 'r', 'o', 'm', 'e']

def chromiumTok : List Char := ['c', 'h', 'r', 'o', 'm', 'i', 'u', 'm']

def firefoxTok : List Char := ['f', 'i', 'r', 'e', 'f', 'o', 'x']

def safariTok : List Char := ['s', 'a', 'f', 'a', 'r', 'i']

def webkitTok : List Char := ['w', 'e', 'b', 'k', 'i', 't']

/-- The flag `--with-storage`. -/
def storageFlagTok : List Char :=
  ['-', '-', 'w', 'i', 't', 'h', '-', 's', 't', 'o', 'r', 'a', 'g', 'e']

/-- The file-name prefix `storage-state-`. -/
def fileNamePre : List Char :=
  ['s', 't', 'o', 'r', 'a', 'g', 'e', '-', 's', 't', 'a', 't', 'e', '-']

/-- The file-name suffix `.json`. -/
def fileNameSuf : List Char := ['.', 'j', 's', 'o', 'n']

/-- Model of `String.prototype.toLowerCase` on the ASCII tokens the program
compares against. -/
def lowerStr (s : List Char) : List Char := s.map Char.toLower

/-- Test `arg.startsWith('--')`. -/
def isFlagArg : List Char → Bool
  | '-' :: '-' :: _ => true
  | _ => false

/-- The positional arguments, `process.argv.slice(2).filter((arg) => !arg.startsWith('--'))`. -/
def positionalArgs (argv : List (List Char)) : List (List Char) :=
  argv.filter (fun a => !isFlagArg a)

/-- Flag test `process.argv.includes('--with-storage')`. -/
def hasStorageFlag (argv : List (List Char)) : Bool :=
  argv.any (fun a => decide (a = storageFlagTok))

/-- The token `(args[0] || 'safari').toLowerCase()`: the first positional token,
with absent or empty (falsy) tokens replaced by `safari`, lowercased. -/
def browserTypeOf (argv : List (List Char)) : List Char :=
  lowerStr (match positionalArgs argv with
    | [] => safariTok
    | a :: _ => if a = [] then safariTok else a)

/-- The `switch (browserType)` statement: engine selection from the
lowercased token, with default `webkit`. -/
def selectEngine (bt : List Char) : Engine :=
  if bt = chromeTok then .chromium
  else if bt = chromiumTok then .chromium
  else if bt = firefoxTok then .firefox
  else if bt = safariTok then .webkit
  else if bt = webkitTok then .webkit
  else .webkit

/-- Engine selected for a raw command-line token. -/
def engineOfToken (tok : List Char) : Engine := selectEngine (lowerStr tok)

/-- The name `` `storage-state-${browserType}.json` `` for a raw token. -/
def storageFileName (tok : List Char) : List Char :=
  fileNamePre ++ lowerStr tok ++ fileNameSuf

/-! ## Startup load paths

Caching variant (`src/unnamed/part_000`, lines 179-190): read the file,
`JSON.parse` it, use the parsed object; `ENOENT` is silent, any other
failure logs one diagnostic and the run continues with no prior state.

Direct variant (`src/index.js`, lines 93-95): no parsing at all; when the
flag is set and `existsSync` succeeds, the *path* is handed to the
library (`contextOptions.storageState = storageFileName`). -/

/-- Result of a startup load: the storage state handed to `newContext`,
the number of diagnostics printed, and the snapshot file afterwards. -/
structure LoadOutcome where
  state : Option Json
  diagnostics : Nat
  fileAfter : Option (List Char)

/-- The caching variant's load (`loadIfPresent` in the spec).  `file` is
the snapshot file's contents, `none` when the file does not exist
(`readFileSync` throwing `ENOENT`).  The load never writes the file. -/
def loadIfPresent (file : Option (List Char)) : LoadOutcome :=
  match file with
  | none => { state := none, diagnostics := 0, fileAfter := none }
  | some s =>
    match jsonParse s with
    | some v => { state := some v, diagnostics := 0, fileAfter := some s }
    | none => { state := none, diagnostics := 1, fileAfter := some s }

/-- The direct variant's startup "load": `existsSync` plus handing the
path over, never reading or parsing `content`, never logging. -/
def loadIndexStartup (withStorage fileExists : Bool) (content : List Char)
    (tok : List Char) : Option (List Char) × Nat :=
  (if withStorage && fileExists then some (storageFileName tok) else none,
   (fun _ => 0) content)

/-- Function `writeStorageToFile` from `src/unnamed/part_000` (lines 76-88): write
`JSON.stringify(cachedStorageState, null, 2)` when the cache is truthy,
otherwise leave the file alone. -/
def writeStorageToFile (cache : Option Json) (file : Option (List Char)) :
    Option (List Char) :=
  match cache with
  | some v => if truthy v then some (jsonStringify v) else file
  | none => file

/-- Static startup configuration of the direct variant's `main`
(`src/index.js` lines 87-106): whether `existsSync` was consulted (the
`withStorage && existsSync(...)` conjunction short-circuits), what was
passed as `storageState`, and whether `setupStorageManagement` ran. -/
structure StartupConfig where
  existsChecked : Bool
  storagePathOpt : Option (List Char)
  persistenceInstalled : Bool

/-- Function `main` of `src/index.js`, up to the effects the claims mention. -/
def mainIndexStartup (argv : List (List Char)) (fileExists : Bool) : StartupConfig :=
  let withStorage := hasStorageFlag argv
  let bt := browserTypeOf argv
  { existsChecked := withStorage
  , storagePathOpt :=
      if withStorage && fileExists then some (fileNamePre ++ bt ++ fileNameSuf) else none
  , persistenceInstalled := withStorage }

/-! ## Runtime event machine

A small-step model of the Node event loop fragment the two variants use:
the 5-second interval, the `SIGINT`/`SIGTERM` handlers, the
`disconnected` hook, and the suspension points (`await
context.storageState()`, `await browser.close()`).  A handler body runs
atomically up to its next `await`; the pending operation is parked and
later resolved by a scheduler event carrying the operation's outcome.
`process.exit` terminates the machine: every later event is a no-op. -/

/-- Observable actions, in chronological order of occurrence. -/
inductive Act where
  | clearTimer : Act
  | logLine : Act
  | captureCall : Act
  | fileWrite (content : List Char) : Act
  | closeCall : Act
  | exitCall (code : Nat) : Act
  | tickFire : Act

/-- Handler-body programs (straight-line JS with awaits). -/
inductive Prog where
  | clearTimer (k : Prog) : Prog
  | logLine (k : Prog) : Prog
  | captureAwait (ok : Json → Prog) (err : Prog) : Prog
  | setCache (v : Json) (k : Prog) : Prog
  | writeCacheToFile (k : Prog) : Prog
  | writeFileDirect (v : Json) (k : Prog) : Prog
  | closeAwait (k : Prog) : Prog
  | exitProc (code : Nat) : Prog
  | done : Prog

/-- A parked asynchronous operation. -/
inductive Pending where
  | capture (ok : Json → Prog) (err : Prog) : Pending
  | closing (k : Prog) : Pending

/-- Machine state. -/
structure Sys where
  cache : Option Json
  file : Option (List Char)
  timer : Bool
  handlers : Bool
  exited : Option Nat
  pending : List Pending
  trace : List Act

/-- Run a program until it parks, exits or finishes. -/
def run : Prog → Sys → Sys
  | .clearTimer k, s =>
      run k { s with timer := false, trace := s.trace ++ [.clearTimer] }
  | .logLine k, s => run k { s with trace := s.trace ++ [.logLine] }
  | .captureAwait ok err, s =>
      { s with pending := s.pending ++ [.capture ok err]
             , trace := s.trace ++ [.captureCall] }
  | .setCache v k, s => run k { s with cache := some v }
  | .writeCacheToFile k, s =>
      match s.cache with
      | some v =>
        if truthy v then
          run k { s with file := some (jsonStringify v), trace := s.trace ++ [.fileWrite (jsonStringify v)] }
        else run k s
      | none => run k s
  | .writeFileDirect v k, s =>
      run k { s with file := some (jsonStringify v), trace := s.trace ++ [.fileWrite (jsonStringify v)] }
  | .closeAwait k, s =>
      { s with pending := s.pending ++ [.closing k]
             , trace := s.trace ++ [.closeCall] }
  | .exitProc c, s => { s with exited := some c, trace := s.trace ++ [.exitCall c] }
  | .done, s => s

/-- The three installed callbacks of a variant. -/
structure Machine where
  onSignal : Prog
  onDisconnected : Prog
  onTick : Prog

/-- The `saveInterval` callback, `src/index.js` lines 19-25: one direct
`storageState({ path })` write, errors ignored. -/
def tickIndex : Prog := .captureAwait (fun v => .writeFileDirect v .done) .done

/-- Handler `handleShutdown`, `src/index.js` lines 33-44: clear the interval,
log, one direct write attempt (errors ignored), `process.exit(0)`. -/
def handleShutdownIndex : Prog :=
  .clearTimer (.logLine (.captureAwait
    (fun v => .writeFileDirect v (.logLine (.exitProc 0)))
    (.exitProc 0)))

/-- The `disconnected` hook, `src/index.js` lines 28-30: only clear the
interval; the process keeps running. -/
def onDisconnectedIndex : Prog := .clearTimer .done

/-- The direct variant's installed callbacks. -/
def indexMachine : Machine :=
  { onSignal := handleShutdownIndex
  , onDisconnected := onDisconnectedIndex
  , onTick := tickIndex }

/-- The `saveInterval` callback, `src/unnamed/part_000` lines 92-98: refresh
the in-memory cache, errors ignored. -/
def tickCaching : Prog := .captureAwait (fun v => .setCache v .done) .done

/-- Handler `handleShutdown`, `src/unnamed/part_000` lines 109-126: clear the
interval, log, capture into the cache and flush; on capture failure
flush whatever is cached; close the browser (errors ignored);
`process.exit(0)`. -/
def handleShutdownCaching : Prog :=
  .clearTimer (.logLine (.captureAwait
    (fun v => .setCache v (.writeCacheToFile (.closeAwait (.exitProc 0))))
    (.writeCacheToFile (.closeAwait (.exitProc 0)))))

/-- The `disconnected` hook, `src/unnamed/part_000` lines 101-106: clear the
interval, log, flush the cache, `process.exit(0)`. -/
def onDisconnectedCaching : Prog :=
  .clearTimer (.logLine (.writeCacheToFile (.exitProc 0)))

/-- The caching variant's installed callbacks. -/
def cachingMachine : Machine :=
  { onSignal := handleShutdownCaching
  , onDisconnected := onDisconnectedCaching
  , onTick := tickCaching }

/-- Scheduler events: signal delivery, the `disconnected` hook firing,
an interval tick, or resolution of the `i`-th pending operation with a
capture outcome. -/
inductive Ev where
  | sigint : Ev
  | disconnect : Ev
  | tick : Ev
  | resolve (i : Nat) (res : Except Unit Json) : Ev

/-- The `i`-th pending operation. -/
def pendAt : List Pending → Nat → Option Pending
  | [], _ => none
  | p :: _, 0 => some p
  | _ :: r, n + 1 => pendAt r n

/-- Remove the `i`-th pending operation. -/
def pendErase : List Pending → Nat → List Pending
  | [], _ => []
  | _ :: r, 0 => r
  | p :: r, n + 1 => p :: pendErase r n

/-- One scheduler step. -/
def execEv (m : Machine) (s : Sys) : Ev → Sys
  | .sigint => if s.exited.isSome then s else if s.handlers then run m.onSignal s else s
  | .disconnect =>
      if s.exited.isSome then s
      else if s.handlers then run m.onDisconnected s else s
  | .tick =>
      if s.exited.isSome then s
      else if s.timer then run m.onTick { s with trace := s.trace ++ [.tickFire] } else s
  | .resolve i res =>
      if s.exited.isSome then s
      else
        match pendAt s.pending i with
        | some (.capture ok err) =>
          let s2 := { s with pending := pendErase s.pending i }
          match res with
          | .ok v => run (ok v) s2
          | .error _ => run err s2
        | some (.closing k) => run k { s with pending := pendErase s.pending i }
        | none => s

/-- Run a whole schedule. -/
def execEvs (m : Machine) (evs : List Ev) (s : Sys) : Sys :=
  evs.foldl (execEv m) s

/-- Initial state right after `setupStorageManagement` would run:
`handlers`/`timer` indicate whether it ran at all. -/
def initSys (handlers timer : Bool) (cache : Option Json)
    (file : Option (List Char)) : Sys :=
  { cache := cache, file := file, timer := timer, handlers := handlers
  , exited := none, pending := [], trace := [] }

/-- Number of snapshot-file writes in a trace. -/
def countWrites : List Act → Nat
  | [] => 0
  | .fileWrite _ :: r => countWrites r + 1
  | _ :: r => countWrites r

/-- Number of `browser.close()` calls in a trace. -/
def countCloses : List Act → Nat
  | [] => 0
  | .closeCall :: r => countCloses r + 1
  | _ :: r => countCloses r

/-- Whether a trace contains a `clearInterval`. -/
def hasClear : List Act → Bool
  | [] => false
  | .clearTimer :: _ => true
  | _ :: r => hasClear r

/-- Whether a trace contains an interval firing. -/
def hasTick : List Act → Bool
  | [] => false
  | .tickFire :: _ => true
  | _ :: r => hasTick r

/-- Whether a trace contains a `browser.close()` call. -/
def hasClose : List Act → Bool
  | [] => false
  | .closeCall :: _ => true
  | _ :: r => hasClose r

/-- No interval firing occurs chronologically after a `clearInterval`
(`seen` carries whether a `clearInterval` was already passed). -/
def tickSafe (seen : Bool) : List Act → Bool
  | [] => true
  | .tickFire :: r => !seen && tickSafe seen r
  | .clearTimer :: r => tickSafe true r
  | _ :: r => tickSafe seen r

/-- All characters are whitespace (indentation strings). -/
def allWs (l : List Char) : Prop := ∀ c ∈ l, isWs c = true

/-- The input does not continue a decimal number. -/
def notDigitStart : List Char → Prop
  | [] => True
  | c :: _ => isDig c = false

/-! # Theorems

First the printer/parser round-trip development, then the claim
theorems. -/

theorem isDig_digChar (d : Nat) (hd : d < 10) : isDig (digChar d) = true := by
  interval_cases d <;> decide

theorem digVal_digChar (d : Nat) (hd : d < 10) : digVal (digChar d) = d := by
  interval_cases d <;> decide

theorem parseNatAux_stop (acc : Nat) (rest : List Char) (hr : notDigitStart rest) :
    parseNatAux acc rest = (acc, rest) := by
  cases rest with
  | nil => rfl
  | cons c r =>
    simp only [notDigitStart] at hr
    simp [parseNatAux, hr]

theorem parseNatAux_digits (l : List Nat) (hl : ∀ d ∈ l, d < 10) (acc : Nat)
    (rest : List Char) (hr : notDigitStart rest) :
    parseNatAux acc (l.map digChar ++ rest)
      = (l.foldl (fun a d => a * 10 + d) acc, rest) := by
  induction l generalizing acc with
  | nil => simpa using parseNatAux_stop acc rest hr
  | cons d l ih =>
    have hd : d < 10 := hl d (by simp)
    have hl2 : ∀ e ∈ l, e < 10 := fun e he => hl e (by simp [he])
    simp only [List.map_cons, List.cons_append, parseNatAux, isDig_digChar d hd,
      if_true, digVal_digChar d hd, List.foldl_cons]
    exact ih hl2 (acc * 10 + d)

theorem foldl_reverse_ofDigits (ds : List Nat) (acc : Nat) :
    ds.reverse.foldl (fun a d => a * 10 + d) acc
      = acc * 10 ^ ds.length + Nat.ofDigits 10 ds := by
  induction ds generalizing acc with
  | nil => simp
  | cons d ds ih =>
    simp only [List.reverse_cons, List.foldl_append, List.foldl_cons, List.foldl_nil,
      Nat.ofDigits_cons, ih, List.length_cons, pow_succ]
    ring

theorem parseNatAux_natChars (n : Nat) (rest : List Char) (hr : notDigitStart rest) :
    parseNatAux 0 (natChars n ++ rest) = (n, rest) := by
  by_cases h0 : n = 0
  · subst h0
    have h1 : natChars 0 = ['0'] := by norm_num [natChars]
    rw [h1]
    have h2 : parseNatAux 0 (['0'] ++ rest) = parseNatAux 0 rest := by
      simp [parseNatAux, isDig, digVal]
    rw [h2, parseNatAux_stop 0 rest hr]
  · simp only [natChars, if_neg h0]
    have hmap : ((Nat.digits 10 n).map digChar).reverse
        = ((Nat.digits 10 n).reverse).map digChar := by
      simp [List.map_reverse]
    rw [hmap]
    have hlt : ∀ d ∈ (Nat.digits 10 n).reverse, d < 10 := by
      intro d hd
      rw [List.mem_reverse] at hd
      exact Nat.digits_lt_base (by norm_num) hd
    rw [parseNatAux_digits ((Nat.digits 10 n).reverse) hlt 0 rest hr,
      foldl_reverse_ofDigits]
    simp [Nat.ofDigits_digits]

theorem natChars_head (n : Nat) :
    ∃ c t, natChars n = c :: t ∧ isDig c = true := by
  by_cases h0 : n = 0
  · exact ⟨'0', [], by simp [h0, natChars], by decide⟩
  · have hne : (Nat.digits 10 n).reverse ≠ [] := by
      simp [Nat.digits_ne_nil_iff_ne_zero, h0]
    have hmap : natChars n = ((Nat.digits 10 n).reverse).map digChar := by
      simp [natChars, h0, List.map_reverse]
    cases hrev : (Nat.digits 10 n).reverse with
    | nil => exact absurd hrev hne
    | cons d t =>
      have hd10 : d < 10 := by
        have hmem : d ∈ Nat.digits 10 n := by
          rw [← List.mem_reverse, hrev]; simp
        exact Nat.digits_lt_base (by norm_num) hmem
      exact ⟨digChar d, t.map digChar, by rw [hmap, hrev, List.map_cons],
        isDig_digChar d hd10⟩

theorem isDig_ne_of (c d : Char) (hc : isDig c = true) (hd : isDig d = false) :
    c ≠ d := by
  intro h
  rw [h, hd] at hc
  exact Bool.noConfusion hc

theorem isWs_of_isDig (c : Char) (hc : isDig c = true) : isWs c = false := by
  have h1 : c ≠ ' ' := isDig_ne_of c ' ' hc (by decide)
  have h2 : c ≠ '\n' := isDig_ne_of c '\n' hc (by decide)
  have h3 : c ≠ '\t' := isDig_ne_of c '\t' hc (by decide)
  have h4 : c ≠ '\r' := isDig_ne_of c '\r' hc (by decide)
  simp [isWs, h1, h2, h3, h4]

theorem parseNum_intChars (i : Int) (rest : List Char) (hr : notDigitStart rest) :
    parseNum (intChars i ++ rest) = some (i, rest) := by
  cases i with
  | ofNat n =>
    obtain ⟨c, t, hct, hcd⟩ := natChars_head n
    have hmi : c ≠ '-' := isDig_ne_of c '-' hcd (by decide)
    have hsplit : intChars (Int.ofNat n) ++ rest = c :: (t ++ rest) := by
      simp [intChars, hct]
    rw [hsplit]
    have hparse : parseNatAux 0 (c :: (t ++ rest)) = (n, rest) := by
      have : c :: (t ++ rest) = natChars n ++ rest := by simp [hct]
      rw [this]
      exact parseNatAux_natChars n rest hr
    simp [parseNum, hmi, hcd, hparse]
  | negSucc m =>
    obtain ⟨c, t, hct, hcd⟩ := natChars_head (m + 1)
    have hsplit : intChars (Int.negSucc m) ++ rest = '-' :: (natChars (m + 1) ++ rest) := by
      simp [intChars]
    rw [hsplit, hct]
    have hparse : parseNatAux 0 (c :: (t ++ rest)) = (m + 1, rest) := by
      have : c :: (t ++ rest) = natChars (m + 1) ++ rest := by simp [hct]
      rw [this]
      exact parseNatAux_natChars (m + 1) rest hr
    simp [parseNum, hcd, hparse]
    rw [Int.negSucc_eq]
    ring

theorem hexVal_digChar (d : Nat) (hd : d < 16) : hexVal (digChar d) = some d := by
  interval_cases d <;> decide

theorem parseStringBody_escStr (s : List Char) (rest : List Char) :
    parseStringBody (escStr s ++ '"' :: rest) = some (s, rest) := by
  induction s with
  | nil =>
    rw [show escStr [] ++ '"' :: rest = '"' :: rest by simp [escStr],
      parseStringBody.eq_def]
    simp
  | cons c s ih =>
    have hstep : escStr (c :: s) ++ '"' :: rest = escChar c ++ (escStr s ++ '"' :: rest) := by
      simp [escStr]
    rw [hstep]
    by_cases h1 : c = '"'
    · subst h1
      rw [show escChar '"' = ['\\', '"'] from rfl, List.cons_append, List.cons_append,
        List.nil_append, parseStringBody.eq_def]
      simp [mapCons, ih]
    · by_cases h2 : c = '\\'
      · subst h2
        rw [show escChar '\\' = ['\\', '\\'] from rfl, List.cons_append, List.cons_append,
          List.nil_append, parseStringBody.eq_def]
        simp [mapCons, ih]
      · by_cases h3 : c = '\x08'
        · subst h3
          rw [show escChar '\x08' = ['\\', 'b'] from rfl, List.cons_append, List.cons_append,
            List.nil_append, parseStringBody.eq_def]
          simp [mapCons, ih]
        · by_cases h4 : c = '\x0c'
          · subst h4
            rw [show escChar '\x0c' = ['\\', 'f'] from rfl, List.cons_append, List.cons_append,
              List.nil_append, parseStringBody.eq_def]
            simp [mapCons, ih]
          · by_cases h5 : c = '\n'
            · subst h5
              rw [show escChar '\n' = ['\\', 'n'] from rfl, List.cons_append, List.cons_append,
                List.nil_append, parseStringBody.eq_def]
              simp [mapCons, ih]
            · by_cases h6 : c = '\r'
              · subst h6
                rw [show escChar '\r' = ['\\', 'r'] from rfl, List.cons_append, List.cons_append,
                  List.nil_append, parseStringBody.eq_def]
                simp [mapCons, ih]
              · by_cases h7 : c = '\t'
                · subst h7
                  rw [show escChar '\t' = ['\\', 't'] from rfl, List.cons_append, List.cons_append,
                    List.nil_append, parseStringBody.eq_def]
                  simp [mapCons, ih]
                · by_cases h8 : c.toNat < 32
                  · have hesc : escChar c
                        = ['\\', 'u', '0', '0', digChar (c.toNat / 16), digChar (c.toNat % 16)] := by
                      simp [escChar, h1, h2, h3, h4, h5, h6, h7, h8]
                    have hlow : c.toNat / 16 < 16 := by omega
                    have hhi : c.toNat % 16 < 16 := by omega
                    have hx0 : hexVal '0' = some 0 := by decide
                    have hdm : c.toNat / 16 * 16 + c.toNat % 16 = c.toNat := by omega
                    rw [hesc]
                    simp only [List.cons_append, List.nil_append]
                    rw [parseStringBody.eq_def]
                    simp [hx0, hexVal_digChar _ hlow, hexVal_digChar _ hhi, mapCons, ih, hdm]
                  · have hesc : escChar c = [c] := by
                      simp [escChar, h1, h2, h3, h4, h5, h6, h7, h8]
                    rw [hesc]
                    simp only [List.cons_append, List.nil_append]
                    rw [parseStringBody.eq_def]
                    simp [h1, h2, h8, mapCons, ih]

theorem skipWs_cons_notWs (c : Char) (r : List Char) (hc : isWs c = false) :
    skipWs (c :: r) = c :: r := by
  simp [skipWs, hc]

theorem skipWs_ws_append (l : List Char) (hl : allWs l) (s : List Char) :
    skipWs (l ++ s) = skipWs s := by
  induction l with
  | nil => simp
  | cons c r ih =>
    have hc : isWs c = true := hl c (by simp)
    have hr : allWs r := fun d hd => hl d (by simp [hd])
    simp [skipWs, hc, ih hr]

theorem skipWs_pre (pre : List Char) (hpre : allWs pre) (c : Char) (t : List Char)
    (hc : isWs c = false) : skipWs (pre ++ c :: t) = c :: t := by
  rw [skipWs_ws_append pre hpre, skipWs_cons_notWs c t hc]

theorem allWs_nil : allWs [] := by
  intro c hc
  cases hc

theorem allWs_cons (c : Char) (l : List Char) (hc : isWs c = true) (hl : allWs l) :
    allWs (c :: l) := by
  intro d hd
  cases hd with
  | head => exact hc
  | tail _ h => exact hl d h

theorem allWs_append (l1 l2 : List Char) (h1 : allWs l1) (h2 : allWs l2) :
    allWs (l1 ++ l2) := by
  intro c hc
  rcases List.mem_append.mp hc with h | h
  · exact h1 c h
  · exact h2 c h

theorem allWs_gap : allWs gap := by
  intro c hc
  simp [gap] at hc
  subst hc
  decide

theorem intChars_head (i : Int) :
    ∃ c t, intChars i = c :: t ∧ isWs c = false ∧ c ≠ ']' ∧ c ≠ '}' := by
  cases i with
  | ofNat n =>
    obtain ⟨c, t, hct, hcd⟩ := natChars_head n
    exact ⟨c, t, by simp [intChars, hct], isWs_of_isDig c hcd,
      isDig_ne_of c ']' hcd (by decide), isDig_ne_of c '}' hcd (by decide)⟩
  | negSucc m =>
    exact ⟨'-', natChars (m + 1), by simp [intChars], by decide⟩

theorem stringify_head (ind : List Char) (v : Json) :
    ∃ c t, stringify ind v = c :: t ∧ isWs c = false ∧ c ≠ ']' ∧ c ≠ '}' := by
  cases v with
  | null => exact ⟨'n', _, rfl, by decide⟩
  | bool b =>
    cases b with
    | true => exact ⟨'t', _, rfl, by decide⟩
    | false => exact ⟨'f', _, rfl, by decide⟩
  | num i =>
    obtain ⟨c, t, hct, hws, h1, h2⟩ := intChars_head i
    exact ⟨c, t, by rw [show stringify ind (.num i) = intChars i from rfl, hct], hws, h1, h2⟩
  | str s => exact ⟨'"', _, rfl, by decide⟩
  | arr l =>
    cases l with
    | nil => exact ⟨'[', _, rfl, by decide⟩
    | cons h t => exact ⟨'[', _, rfl, by decide⟩
  | obj l =>
    cases l with
    | nil => exact ⟨'{', _, rfl, by decide⟩
    | cons k v t => exact ⟨'{', _, rfl, by decide⟩

theorem notDigitStart_cons (c : Char) (r : List Char) (hc : isDig c = false) :
    notDigitStart (c :: r) := hc

theorem intChars_head_cases (i : Int) :
    ∃ c t, intChars i = c :: t ∧ (c = '-' ∨ isDig c = true) := by
  cases i with
  | ofNat n =>
    obtain ⟨c, t, hct, hcd⟩ := natChars_head n
    exact ⟨c, t, by simp [intChars, hct], Or.inr hcd⟩
  | negSucc m => exact ⟨'-', natChars (m + 1), by simp [intChars], Or.inl rfl⟩

theorem numHead_ne (c : Char) (hc : c = '-' ∨ isDig c = true) (d : Char)
    (hd : d ≠ '-') (hd2 : isDig d = false) : c ≠ d := by
  cases hc with
  | inl h => subst h; exact fun he => hd he.symm
  | inr h => exact isDig_ne_of c d h hd2

theorem szV_pos (v : Json) : 1 ≤ szV v := by
  cases v with
  | null => simp [szV]
  | bool b => simp [szV]
  | num i => simp [szV]
  | str s => simp [szV]
  | arr l => cases l <;> simp [szV]
  | obj l => cases l <;> simp [szV]

theorem szI_pos (h : Json) (t : JsonList) : 1 ≤ szI h t := by
  cases t with
  | nil => simp [szI]
  | cons h2 t2 => simp [szI]; omega

theorem szF_pos (k : List Char) (v : Json) (t : JsonFields) : 1 ≤ szF k v t := by
  cases t with
  | nil => simp [szF]
  | cons k2 v2 t2 => simp [szF]; omega

mutual

theorem rt_val (v : Json) : ∀ fuel ind pre rest, szV v ≤ fuel → allWs ind → allWs pre →
    notDigitStart rest → pVal fuel (pre ++ (stringify ind v ++ rest)) = some (v, rest) := by
  intro fuel ind pre rest hsz hind hpre hrest
  cases fuel with
  | zero => exact absurd hsz (by have := szV_pos v; omega)
  | succ g =>
    cases v with
    | null =>
      have hskip : skipWs (pre ++ (stringify ind .null ++ rest))
          = 'n' :: ('u' :: 'l' :: 'l' :: rest) := by
        rw [show stringify ind Json.null = ['n', 'u', 'l', 'l'] from rfl]
        simpa using skipWs_pre pre hpre 'n' ('u' :: 'l' :: 'l' :: rest) (by decide)
      simp only [pVal, hskip]
      simp [expectLit]
    | bool b =>
      cases b with
      | true =>
        have hskip : skipWs (pre ++ (stringify ind (.bool true) ++ rest))
            = 't' :: ('r' :: 'u' :: 'e' :: rest) := by
          rw [show stringify ind (Json.bool true) = ['t', 'r', 'u', 'e'] from rfl]
          simpa using skipWs_pre pre hpre 't' ('r' :: 'u' :: 'e' :: rest) (by decide)
        simp only [pVal, hskip]
        simp [expectLit]
      | false =>
        have hskip : skipWs (pre ++ (stringify ind (.bool false) ++ rest))
            = 'f' :: ('a' :: 'l' :: 's' :: 'e' :: rest) := by
          rw [show stringify ind (Json.bool false) = ['f', 'a', 'l', 's', 'e'] from rfl]
          simpa using skipWs_pre pre hpre 'f' ('a' :: 'l' :: 's' :: 'e' :: rest) (by decide)
        simp only [pVal, hskip]
        simp [expectLit]
    | num i =>
      obtain ⟨c, t, hct, hc⟩ := intChars_head_cases i
      have hws : isWs c = false := by
        cases hc with
        | inl h => subst h; decide
        | inr h => exact isWs_of_isDig c h
      have hskip : skipWs (pre ++ (stringify ind (.num i) ++ rest)) = c :: (t ++ rest) := by
        rw [show stringify ind (Json.num i) = intChars i from rfl, hct]
        simpa using skipWs_pre pre hpre c (t ++ rest) hws
      have hn1 : c ≠ 'n' := numHead_ne c hc 'n' (by decide) (by decide)
      have hn2 : c ≠ 't' := numHead_ne c hc 't' (by decide) (by decide)
      have hn3 : c ≠ 'f' := numHead_ne c hc 'f' (by decide) (by decide)
      have hn4 : c ≠ '"' := numHead_ne c hc '"' (by decide) (by decide)
      have hn5 : c ≠ '[' := numHead_ne c hc '[' (by decide) (by decide)
      have hn6 : c ≠ '{' := numHead_ne c hc '{' (by decide) (by decide)
      have hparse : parseNum (c :: (t ++ rest)) = some (i, rest) := by
        rw [show c :: (t ++ rest) = intChars i ++ rest by simp [hct]]
        exact parseNum_intChars i rest hrest
      simp only [pVal, hskip]
      simp [hn1, hn2, hn3, hn4, hn5, hn6, hparse]
    | str s =>
      have hskip : skipWs (pre ++ (stringify ind (.str s) ++ rest))
          = '"' :: (escStr s ++ '"' :: rest) := by
        rw [show stringify ind (Json.str s) = '"' :: (escStr s ++ ['"']) from rfl]
        have h0 := skipWs_pre pre hpre '"' ((escStr s ++ ['"']) ++ rest) (by decide)
        simp only [List.append_assoc, List.cons_append, List.singleton_append] at h0 ⊢
        simpa using h0
      simp only [pVal, hskip]
      simp [parseStringBody_escStr s rest]
    | arr l =>
      cases l with
      | nil =>
        have hskip : skipWs (pre ++ (stringify ind (.arr .nil) ++ rest))
            = '[' :: (']' :: rest) := by
          rw [show stringify ind (Json.arr .nil) = ['[', ']'] from rfl]
          simpa using skipWs_pre pre hpre '[' (']' :: rest) (by decide)
        simp only [pVal, hskip]
        simp [skipWs, isWs]
      | cons h t2 =>
        have hind2 : allWs (ind ++ gap) := allWs_append ind gap hind allWs_gap
        obtain ⟨c0, t0, hc0, hws0, hne0, hne0b⟩ := stringify_head (ind ++ gap) h
        have hszI : szI h t2 ≤ g := by
          have he : szV (Json.arr (JsonList.cons h t2)) = 1 + szI h t2 := by simp [szV]
          omega
        have hskip : skipWs (pre ++ (stringify ind (.arr (.cons h t2)) ++ rest))
            = '[' :: ('\n' :: ((ind ++ gap) ++ (stringify (ind ++ gap) h
              ++ (stringifyItems (ind ++ gap) t2 ++ ('\n' :: (ind ++ (']' :: rest))))))) := by
          have h0 := skipWs_pre pre hpre '['
            ('\n' :: ((ind ++ gap) ++ (stringify (ind ++ gap) h
              ++ (stringifyItems (ind ++ gap) t2 ++ ('\n' :: (ind ++ (']' :: rest)))))))
            (by decide)
          have h1 : pre ++ (stringify ind (.arr (.cons h t2)) ++ rest)
              = pre ++ '[' :: ('\n' :: ((ind ++ gap) ++ (stringify (ind ++ gap) h
                ++ (stringifyItems (ind ++ gap) t2 ++ ('\n' :: (ind ++ (']' :: rest))))))) := by
            rw [show stringify ind (Json.arr (JsonList.cons h t2))
                = '[' :: '\n' :: ((ind ++ gap) ++ stringify (ind ++ gap) h
                  ++ stringifyItems (ind ++ gap) t2 ++ '\n' :: (ind ++ [']'])) from rfl]
            simp
          rw [h1, h0]
        have hskip2 : skipWs ('\n' :: ((ind ++ gap) ++ (stringify (ind ++ gap) h
              ++ (stringifyItems (ind ++ gap) t2 ++ ('\n' :: (ind ++ (']' :: rest)))))))
            = c0 :: (t0 ++ (stringifyItems (ind ++ gap) t2 ++ ('\n' :: (ind ++ (']' :: rest))))) := by
          have h0 := skipWs_pre ('\n' :: (ind ++ gap))
            (allWs_cons '\n' (ind ++ gap) (by decide) hind2) c0
            (t0 ++ (stringifyItems (ind ++ gap) t2 ++ ('\n' :: (ind ++ (']' :: rest)))))
            hws0
          rw [← h0, hc0]
          simp
        have hfin : pItems g (c0 :: (t0 ++ (stringifyItems (ind ++ gap) t2
              ++ ('\n' :: (ind ++ (']' :: rest))))))
            = some (JsonList.cons h t2, rest) := by
          have h0 := rt_items h t2 g ind (ind ++ gap) [] rest hszI hind hind2 allWs_nil
          rw [List.nil_append, hc0] at h0
          simpa using h0
        simp only [List.append_assoc] at hskip2 hfin
        simp only [pVal, hskip]
        simp [hskip2, hne0, hfin]
    | obj l =>
      cases l with
      | nil =>
        have hskip : skipWs (pre ++ (stringify ind (.obj .nil) ++ rest))
            = '{' :: ('}' :: rest) := by
          rw [show stringify ind (Json.obj .nil) = ['{', '}'] from rfl]
          simpa using skipWs_pre pre hpre '{' ('}' :: rest) (by decide)
        simp only [pVal, hskip]
        simp [skipWs, isWs]
      | cons k v t2 =>
        have hind2 : allWs (ind ++ gap) := allWs_append ind gap hind allWs_gap
        have hszF : szF k v t2 ≤ g := by
          have he : szV (Json.obj (JsonFields.cons k v t2)) = 1 + szF k v t2 := by
            simp [szV]
          omega
        have hskip : skipWs (pre ++ (stringify ind (.obj (.cons k v t2)) ++ rest))
            = '{' :: ('\n' :: ((ind ++ gap) ++ ('"' :: (escStr k
              ++ ('"' :: ':' :: ' ' :: (stringify (ind ++ gap) v
                ++ (stringifyFields (ind ++ gap) t2 ++ ('\n' :: (ind ++ ('}' :: rest)))))))))) := by
          have h0 := skipWs_pre pre hpre '{'
            ('\n' :: ((ind ++ gap) ++ ('"' :: (escStr k
              ++ ('"' :: ':' :: ' ' :: (stringify (ind ++ gap) v
                ++ (stringifyFields (ind ++ gap) t2 ++ ('\n' :: (ind ++ ('}' :: rest))))))))))
            (by decide)
          have h1 : pre ++ (stringify ind (.obj (.cons k v t2)) ++ rest)
              = pre ++ '{' :: ('\n' :: ((ind ++ gap) ++ ('"' :: (escStr k
                ++ ('"' :: ':' :: ' ' :: (stringify (ind ++ gap) v
                  ++ (stringifyFields (ind ++ gap) t2 ++ ('\n' :: (ind ++ ('}' :: rest)))))))))) := by
            rw [show stringify ind (Json.obj (JsonFields.cons k v t2))
                = '{' :: '\n' :: ((ind ++ gap) ++ '"' :: (escStr k
                  ++ '"' :: ':' :: ' ' :: (stringify (ind ++ gap) v
                    ++ stringifyFields (ind ++ gap) t2 ++ '\n' :: (ind ++ ['}'])))) from rfl]
            simp
          rw [h1, h0]
        have hskip2 : skipWs ('\n' :: ((ind ++ gap) ++ ('"' :: (escStr k
              ++ ('"' :: ':' :: ' ' :: (stringify (ind ++ gap) v
                ++ (stringifyFields (ind ++ gap) t2 ++ ('\n' :: (ind ++ ('}' :: rest))))))))))
            = '"' :: (escStr k ++ ('"' :: ':' :: ' ' :: (stringify (ind ++ gap) v
                ++ (stringifyFields (ind ++ gap) t2 ++ ('\n' :: (ind ++ ('}' :: rest))))))) := by
          have h0 := skipWs_pre ('\n' :: (ind ++ gap))
            (allWs_cons '\n' (ind ++ gap) (by decide) hind2) '"'
            (escStr k ++ ('"' :: ':' :: ' ' :: (stringify (ind ++ gap) v
              ++ (stringifyFields (ind ++ gap) t2 ++ ('\n' :: (ind ++ ('}' :: rest)))))))
            (by decide)
          rw [show ('\n' :: ((ind ++ gap) ++ ('"' :: (escStr k
              ++ ('"' :: ':' :: ' ' :: (stringify (ind ++ gap) v
                ++ (stringifyFields (ind ++ gap) t2 ++ ('\n' :: (ind ++ ('}' :: rest))))))))))
              = ('\n' :: (ind ++ gap)) ++ ('"' :: (escStr k
              ++ ('"' :: ':' :: ' ' :: (stringify (ind ++ gap) v
                ++ (stringifyFields (ind ++ gap) t2 ++ ('\n' :: (ind ++ ('}' :: rest))))))))
            by simp]
          exact h0
        have hfin : pFields g ('"' :: (escStr k ++ ('"' :: ':' :: ' ' :: (stringify (ind ++ gap) v
              ++ (stringifyFields (ind ++ gap) t2 ++ ('\n' :: (ind ++ ('}' :: rest))))))))
            = some (JsonFields.cons k v t2, rest) := by
          have h0 := rt_fields k v t2 g ind (ind ++ gap) [] rest hszF hind hind2 allWs_nil
          simpa using h0
        simp only [List.append_assoc] at hskip2 hfin
        simp only [pVal, hskip]
        simp [hskip2, hfin]
termination_by sizeOf v

theorem rt_items (h : Json) (t : JsonList) : ∀ fuel ind ind2 pre rest, szI h t ≤ fuel →
    allWs ind → allWs ind2 → allWs pre →
    pItems fuel (pre ++ (stringify ind2 h ++ (stringifyItems ind2 t
        ++ '\n' :: (ind ++ ']' :: rest))))
      = some (.cons h t, rest) := by
  intro fuel ind ind2 pre rest hsz hind hind2 hpre
  cases fuel with
  | zero => exact absurd hsz (by have := szI_pos h t; omega)
  | succ g =>
    cases t with
    | nil =>
      have hszV : szV h ≤ g := by
        have he : szI h JsonList.nil = 1 + szV h := by simp [szI]
        omega
      have hval := rt_val h g ind2 pre ('\n' :: (ind ++ (']' :: rest))) hszV hind2 hpre
        (notDigitStart_cons '\n' _ (by decide))
      have hskip3 : skipWs ('\n' :: (ind ++ (']' :: rest))) = ']' :: rest := by
        rw [show ('\n' :: (ind ++ (']' :: rest))) = ('\n' :: ind) ++ (']' :: rest) by simp]
        exact skipWs_pre ('\n' :: ind) (allWs_cons '\n' ind (by decide) hind) ']' rest
          (by decide)
      simp only [List.append_assoc, List.cons_append] at hval hskip3
      simp only [pItems, stringifyItems, List.nil_append]
      simp [hval, hskip3]
    | cons h2 t2 =>
      have hszs : szV h ≤ g ∧ szI h2 t2 ≤ g := by
        have he : szI h (JsonList.cons h2 t2) = 1 + szV h + szI h2 t2 := by simp [szI]
        have h1 := szV_pos h
        have h2p := szI_pos h2 t2
        omega
      have hval := rt_val h g ind2 pre
        (',' :: '\n' :: (ind2 ++ (stringify ind2 h2 ++ (stringifyItems ind2 t2
          ++ '\n' :: (ind ++ (']' :: rest)))))) hszs.1 hind2 hpre
        (notDigitStart_cons ',' _ (by decide))
      have hrec := rt_items h2 t2 g ind ind2 ('\n' :: ind2) rest hszs.2 hind hind2
        (allWs_cons '\n' ind2 (by decide) hind2)
      have hsk : skipWs (',' :: '\n' :: (ind2 ++ (stringify ind2 h2
            ++ (stringifyItems ind2 t2 ++ '\n' :: (ind ++ (']' :: rest))))))
          = ',' :: '\n' :: (ind2 ++ (stringify ind2 h2 ++ (stringifyItems ind2 t2
            ++ '\n' :: (ind ++ (']' :: rest))))) :=
        skipWs_cons_notWs ',' _ (by decide)
      simp only [List.append_assoc, List.cons_append] at hval hrec hsk
      simp only [pItems, stringifyItems, List.append_assoc, List.cons_append]
      simp [hval, hsk, hrec]
termination_by sizeOf h + sizeOf t

theorem rt_fields (k : List Char) (v : Json) (t : JsonFields) : ∀ fuel ind ind2 pre rest,
    szF k v t ≤ fuel → allWs ind → allWs ind2 → allWs pre →
    pFields fuel (pre ++ ('"' :: (escStr k ++ '"' :: ':' :: ' ' :: (stringify ind2 v
        ++ (stringifyFields ind2 t ++ '\n' :: (ind ++ '}' :: rest))))))
      = some (.cons k v t, rest) := by
  intro fuel ind ind2 pre rest hsz hind hind2 hpre
  cases fuel with
  | zero => exact absurd hsz (by have := szF_pos k v t; omega)
  | succ g =>
    have hskipA : skipWs (pre ++ ('"' :: (escStr k ++ '"' :: ':' :: ' ' :: (stringify ind2 v
          ++ (stringifyFields ind2 t ++ '\n' :: (ind ++ '}' :: rest))))))
        = '"' :: (escStr k ++ '"' :: ':' :: ' ' :: (stringify ind2 v
          ++ (stringifyFields ind2 t ++ '\n' :: (ind ++ '}' :: rest)))) :=
      skipWs_pre pre hpre '"' _ (by decide)
    have hpsb := parseStringBody_escStr k (':' :: ' ' :: (stringify ind2 v
      ++ (stringifyFields ind2 t ++ '\n' :: (ind ++ '}' :: rest))))
    have hskB : skipWs (':' :: ' ' :: (stringify ind2 v
          ++ (stringifyFields ind2 t ++ '\n' :: (ind ++ '}' :: rest))))
        = ':' :: ' ' :: (stringify ind2 v
          ++ (stringifyFields ind2 t ++ '\n' :: (ind ++ '}' :: rest))) :=
      skipWs_cons_notWs ':' _ (by decide)
    cases t with
    | nil =>
      have hszV : szV v ≤ g := by
        have he : szF k v JsonFields.nil = 1 + szV v := by simp [szF]
        omega
      have hval := rt_val v g ind2 [' '] ('\n' :: (ind ++ ('}' :: rest))) hszV hind2
        (allWs_cons ' ' [] (by decide) allWs_nil) (notDigitStart_cons '\n' _ (by decide))
      have hskip3 : skipWs ('\n' :: (ind ++ ('}' :: rest))) = '}' :: rest := by
        rw [show ('\n' :: (ind ++ ('}' :: rest))) = ('\n' :: ind) ++ ('}' :: rest) by simp]
        exact skipWs_pre ('\n' :: ind) (allWs_cons '\n' ind (by decide) hind) '}' rest
          (by decide)
      simp only [stringifyFields, List.nil_append, List.append_assoc,
        List.cons_append] at hskipA hpsb hskB
      try simp only [List.append_assoc, List.cons_append, List.singleton_append,
        List.nil_append] at hval
      try simp only [List.append_assoc, List.cons_append, List.singleton_append,
        List.nil_append] at hskip3
      simp only [pFields, stringifyFields, List.nil_append]
      simp [hskipA, hpsb, hskB, hval, hskip3]
    | cons k2 v2 t2 =>
      have hszs : szV v ≤ g ∧ szF k2 v2 t2 ≤ g := by
        have he : szF k v (JsonFields.cons k2 v2 t2) = 1 + szV v + szF k2 v2 t2 := by
          simp [szF]
        have h1 := szV_pos v
        have h2p := szF_pos k2 v2 t2
        omega
      have hval := rt_val v g ind2 [' ']
        (',' :: '\n' :: (ind2 ++ ('"' :: (escStr k2 ++ '"' :: ':' :: ' ' :: (stringify ind2 v2
          ++ (stringifyFields ind2 t2 ++ '\n' :: (ind ++ '}' :: rest))))))) hszs.1 hind2
        (allWs_cons ' ' [] (by decide) allWs_nil) (notDigitStart_cons ',' _ (by decide))
      have hrec := rt_fields k2 v2 t2 g ind ind2 ('\n' :: ind2) rest hszs.2 hind hind2
        (allWs_cons '\n' ind2 (by decide) hind2)
      have hsk : skipWs (',' :: '\n' :: (ind2 ++ ('"' :: (escStr k2
            ++ '"' :: ':' :: ' ' :: (stringify ind2 v2
            ++ (stringifyFields ind2 t2 ++ '\n' :: (ind ++ '}' :: rest)))))))
          = ',' :: '\n' :: (ind2 ++ ('"' :: (escStr k2
            ++ '"' :: ':' :: ' ' :: (stringify ind2 v2
            ++ (stringifyFields ind2 t2 ++ '\n' :: (ind ++ '}' :: rest)))))) :=
        skipWs_cons_notWs ',' _ (by decide)
      simp only [stringifyFields, List.nil_append, List.append_assoc,
        List.cons_append] at hskipA hpsb hskB
      try simp only [List.append_assoc, List.cons_append, List.singleton_append,
        List.nil_append] at hval
      try simp only [List.append_assoc, List.cons_append, List.singleton_append,
        List.nil_append] at hrec
      try simp only [List.append_assoc, List.cons_append, List.singleton_append,
        List.nil_append] at hsk
      simp only [pFields, stringifyFields, List.append_assoc, List.cons_append]
      simp [hskipA, hpsb, hskB, hval, hsk, hrec]
termination_by sizeOf v + sizeOf t

end

mutual

theorem szV_le_len (ind : List Char) (v : Json) : szV v ≤ (stringify ind v).length := by
  cases v with
  | null => simp [szV, stringify, nullChars]
  | bool b => cases b <;> simp [szV, stringify, trueChars, falseChars]
  | num i =>
    obtain ⟨c, t0, hct, hc⟩ := intChars_head_cases i
    have h1 : szV (Json.num i) = 1 := by simp [szV]
    have h2 : stringify ind (Json.num i) = intChars i := rfl
    rw [h1, h2, hct]
    simp
  | str s => simp [szV, stringify]
  | arr l =>
    cases l with
    | nil => simp [szV, stringify]
    | cons h t =>
      have ih := szI_le_len (ind ++ gap) h t
      have h1 : szV (Json.arr (JsonList.cons h t)) = 1 + szI h t := by simp [szV]
      rw [h1, show stringify ind (.arr (.cons h t))
          = '[' :: '\n' :: ((ind ++ gap) ++ stringify (ind ++ gap) h
            ++ stringifyItems (ind ++ gap) t ++ '\n' :: (ind ++ [']'])) from rfl]
      simp only [List.length_cons, List.length_append]
      omega
  | obj l =>
    cases l with
    | nil => simp [szV, stringify]
    | cons k v2 t =>
      have ih := szF_le_len (ind ++ gap) k v2 t
      have h1 : szV (Json.obj (JsonFields.cons k v2 t)) = 1 + szF k v2 t := by simp [szV]
      rw [h1, show stringify ind (.obj (.cons k v2 t))
          = '{' :: '\n' :: ((ind ++ gap) ++ '"' :: (escStr k
            ++ '"' :: ':' :: ' ' :: (stringify (ind ++ gap) v2
              ++ stringifyFields (ind ++ gap) t ++ '\n' :: (ind ++ ['}'])))) from rfl]
      simp only [List.length_cons, List.length_append]
      omega
termination_by sizeOf v

theorem szI_le_len (ind2 : List Char) (h : Json) (t : JsonList) :
    szI h t ≤ (stringify ind2 h).length + (stringifyItems ind2 t).length + 1 := by
  cases t with
  | nil =>
    have ih := szV_le_len ind2 h
    have h1 : szI h JsonList.nil = 1 + szV h := by simp [szI]
    simp only [stringifyItems, List.length_nil]
    omega
  | cons h2 t2 =>
    have ih1 := szV_le_len ind2 h
    have ih2 := szI_le_len ind2 h2 t2
    have h1 : szI h (JsonList.cons h2 t2) = 1 + szV h + szI h2 t2 := by simp [szI]
    simp only [stringifyItems, List.length_cons, List.length_append]
    omega
termination_by sizeOf h + sizeOf t

theorem szF_le_len (ind2 : List Char) (k : List Char) (v : Json) (t : JsonFields) :
    szF k v t ≤ (stringify ind2 v).length + (stringifyFields ind2 t).length + 1 := by
  cases t with
  | nil =>
    have ih := szV_le_len ind2 v
    have h1 : szF k v JsonFields.nil = 1 + szV v := by simp [szF]
    simp only [stringifyFields, List.length_nil]
    omega
  | cons k2 v2 t2 =>
    have ih1 := szV_le_len ind2 v
    have ih2 := szF_le_len ind2 k2 v2 t2
    have h1 : szF k v (JsonFields.cons k2 v2 t2) = 1 + szV v + szF k2 v2 t2 := by
      simp [szF]
    simp only [stringifyFields, List.length_cons, List.length_append]
    omega
termination_by sizeOf v + sizeOf t

end

/-- Platform round trip: `JSON.parse(JSON.stringify(v, null, 2))`
recovers `v` exactly. -/
theorem jsonParse_stringify (v : Json) : jsonParse (jsonStringify v) = some v := by
  have hsz : szV v ≤ (stringify [] v).length + 1 := by
    have := szV_le_len [] v
    omega
  have h := rt_val v ((stringify [] v).length + 1) [] [] [] hsz allWs_nil allWs_nil trivial
  simp only [List.nil_append, List.append_nil] at h
  simp [jsonParse, jsonStringify, h, skipWs]

theorem hasClear_append (l1 l2 : List Act) :
    hasClear (l1 ++ l2) = (hasClear l1 || hasClear l2) := by
  induction l1 with
  | nil => simp [hasClear]
  | cons a r ih => cases a <;> simp [hasClear, ih]

theorem tickSafe_append (l1 : List Act) : ∀ seen l2,
    tickSafe seen (l1 ++ l2) = (tickSafe seen l1 && tickSafe (seen || hasClear l1) l2) := by
  induction l1 with
  | nil => intro seen l2; simp [tickSafe, hasClear]
  | cons a r ih =>
    intro seen l2
    cases a <;> simp [tickSafe, hasClear, ih, Bool.and_assoc]

theorem tickSafe_no_tick (l : List Act) (hl : hasTick l = false) (seen : Bool) :
    tickSafe seen l = true := by
  induction l generalizing seen with
  | nil => rfl
  | cons a r ih =>
    cases a with
    | tickFire => exact absurd hl (by simp [hasTick])
    | clearTimer => exact ih (by simpa [hasTick] using hl) true
    | logLine => exact ih (by simpa [hasTick] using hl) seen
    | captureCall => exact ih (by simpa [hasTick] using hl) seen
    | fileWrite c => exact ih (by simpa [hasTick] using hl) seen
    | closeCall => exact ih (by simpa [hasTick] using hl) seen
    | exitCall c => exact ih (by simpa [hasTick] using hl) seen

theorem run_spec (p : Prog) : ∀ s : Sys, ∃ ext,
    (run p s).trace = s.trace ++ ext ∧ hasTick ext = false ∧
    ((run p s).timer = true → (s.timer = true ∧ hasClear ext = false)) := by
  induction p with
  | clearTimer k ih =>
    intro s
    obtain ⟨ext, htr, htk, htm⟩ := ih { s with timer := false, trace := s.trace ++ [.clearTimer] }
    refine ⟨.clearTimer :: ext, ?_, by simpa [hasTick] using htk, ?_⟩
    · simpa [run] using htr
    · intro h
      rw [show run (Prog.clearTimer k) s
          = run k { s with timer := false, trace := s.trace ++ [.clearTimer] } from rfl] at h
      exact absurd (htm h).1 (by simp)
  | logLine k ih =>
    intro s
    obtain ⟨ext, htr, htk, htm⟩ := ih { s with trace := s.trace ++ [.logLine] }
    refine ⟨.logLine :: ext, by simpa [run] using htr, by simpa [hasTick] using htk, ?_⟩
    intro h
    rw [show run (Prog.logLine k) s = run k { s with trace := s.trace ++ [.logLine] } from rfl] at h
    obtain ⟨h1, h2⟩ := htm h
    exact ⟨h1, by simpa [hasClear] using h2⟩
  | captureAwait ok err ihok iherr =>
    intro s
    exact ⟨[.captureCall], by simp [run], by simp [hasTick], fun _ => ⟨by simpa [run], by simp [hasClear]⟩⟩
  | setCache v k ih =>
    intro s
    obtain ⟨ext, htr, htk, htm⟩ := ih { s with cache := some v }
    exact ⟨ext, by simpa [run] using htr, htk, fun h => htm (by simpa [run] using h)⟩
  | writeCacheToFile k ih =>
    intro s
    cases hc : s.cache with
    | none =>
      obtain ⟨ext, htr, htk, htm⟩ := ih s
      refine ⟨ext, ?_, htk, ?_⟩
      · rw [show run (Prog.writeCacheToFile k) s = run k s by simp [run, hc]]
        exact htr
      · rw [show run (Prog.writeCacheToFile k) s = run k s by simp [run, hc]]
        exact htm
    | some v =>
      by_cases ht : truthy v = true
      · obtain ⟨ext, htr, htk, htm⟩ := ih { s with file := some (jsonStringify v), trace := s.trace ++ [.fileWrite (jsonStringify v)] }
        have hrun : run (Prog.writeCacheToFile k) s
            = run k { s with file := some (jsonStringify v), trace := s.trace ++ [.fileWrite (jsonStringify v)] } := by
          simp [run, hc, ht]
        refine ⟨.fileWrite (jsonStringify v) :: ext, ?_, by simpa [hasTick] using htk, ?_⟩
        · rw [hrun]
          simpa using htr
        · intro h
          rw [hrun] at h
          obtain ⟨h1, h2⟩ := htm h
          exact ⟨by simpa using h1, by simpa [hasClear] using h2⟩
      · obtain ⟨ext, htr, htk, htm⟩ := ih s
        have ht2 : truthy v = false := by simpa using ht
        have hrun : run (Prog.writeCacheToFile k) s = run k s := by
          simp [run, hc, ht2]
        refine ⟨ext, ?_, htk, ?_⟩
        · rw [hrun]; exact htr
        · rw [hrun]; exact htm
  | writeFileDirect v k ih =>
    intro s
    obtain ⟨ext, htr, htk, htm⟩ := ih { s with file := some (jsonStringify v), trace := s.trace ++ [.fileWrite (jsonStringify v)] }
    refine ⟨.fileWrite (jsonStringify v) :: ext, by simpa [run] using htr,
      by simpa [hasTick] using htk, ?_⟩
    intro h
    rw [show run (Prog.writeFileDirect v k) s = run k { s with file := some (jsonStringify v), trace := s.trace ++ [.fileWrite (jsonStringify v)] } from rfl] at h
    obtain ⟨h1, h2⟩ := htm h
    exact ⟨by simpa using h1, by simpa [hasClear] using h2⟩
  | closeAwait k ih =>
    intro s
    exact ⟨[.closeCall], by simp [run], by simp [hasTick],
      fun _ => ⟨by simpa [run], by simp [hasClear]⟩⟩
  | exitProc c =>
    intro s
    exact ⟨[.exitCall c], by simp [run], by simp [hasTick],
      fun _ => ⟨by simpa [run], by simp [hasClear]⟩⟩
  | done =>
    intro s
    exact ⟨[], by simp [run], by simp [hasTick], fun h => ⟨by simpa [run] using h, by simp [hasClear]⟩⟩

theorem run_pres (p : Prog) (s : Sys)
    (h1 : tickSafe false s.trace = true)
    (h2 : hasClear s.trace = true → s.timer = false) :
    tickSafe false (run p s).trace = true ∧
    (hasClear (run p s).trace = true → (run p s).timer = false) := by
  obtain ⟨ext, htr, htk, htm⟩ := run_spec p s
  constructor
  · rw [htr, tickSafe_append]
    rw [h1, tickSafe_no_tick ext htk (false || hasClear s.trace)]
    rfl
  · intro hc
    rw [htr, hasClear_append] at hc
    cases hrt : (run p s).timer with
    | false => rfl
    | true =>
      obtain ⟨hst, hce⟩ := htm hrt
      rcases Bool.or_eq_true_iff.mp hc with h | h
      · rw [h2 h] at hst
        exact Bool.noConfusion hst
      · rw [h] at hce
        exact Bool.noConfusion hce

theorem execEv_pres (m : Machine) (s : Sys) (e : Ev)
    (h1 : tickSafe false s.trace = true)
    (h2 : hasClear s.trace = true → s.timer = false) :
    tickSafe false (execEv m s e).trace = true ∧
    (hasClear (execEv m s e).trace = true → (execEv m s e).timer = false) := by
  cases e with
  | sigint =>
    by_cases hx : s.exited.isSome
    · simpa [execEv, hx] using ⟨h1, h2⟩
    · by_cases hh : s.handlers
      · simpa [execEv, hx, hh] using run_pres m.onSignal s h1 h2
      · simpa [execEv, hx, hh] using ⟨h1, h2⟩
  | disconnect =>
    by_cases hx : s.exited.isSome
    · simpa [execEv, hx] using ⟨h1, h2⟩
    · by_cases hh : s.handlers
      · simpa [execEv, hx, hh] using run_pres m.onDisconnected s h1 h2
      · simpa [execEv, hx, hh] using ⟨h1, h2⟩
  | tick =>
    by_cases hx : s.exited.isSome
    · simpa [execEv, hx] using ⟨h1, h2⟩
    · by_cases htm : s.timer = true
      · have hclr : hasClear s.trace = false := by
          cases hcl : hasClear s.trace with
          | false => rfl
          | true => rw [h2 hcl] at htm; exact Bool.noConfusion htm
        have h1b : tickSafe false (s.trace ++ [Act.tickFire]) = true := by
          rw [tickSafe_append, h1, hclr]
          rfl
        have h2b : hasClear (s.trace ++ [Act.tickFire]) = true
            → ({ s with trace := s.trace ++ [Act.tickFire] } : Sys).timer = false := by
          intro hcl
          rw [hasClear_append, hclr] at hcl
          exact absurd hcl (by simp [hasClear])
        have hres := run_pres m.onTick { s with trace := s.trace ++ [Act.tickFire] } h1b h2b
        simpa [execEv, hx, htm] using hres
      · have htm2 : s.timer = false := by simpa using htm
        rw [show execEv m s .tick = s by simp [execEv, hx, htm2]]
        exact ⟨h1, h2⟩
  | resolve i res =>
    by_cases hx : s.exited.isSome
    · simpa [execEv, hx] using ⟨h1, h2⟩
    · cases hp : pendAt s.pending i with
      | none => simpa [execEv, hx, hp] using ⟨h1, h2⟩
      | some pnd =>
        cases pnd with
        | capture ok err =>
          cases res with
          | ok v =>
            simpa [execEv, hx, hp] using
              run_pres (ok v) { s with pending := pendErase s.pending i } h1 h2
          | error u =>
            simpa [execEv, hx, hp] using
              run_pres err { s with pending := pendErase s.pending i } h1 h2
        | closing k =>
          simpa [execEv, hx, hp] using
            run_pres k { s with pending := pendErase s.pending i } h1 h2

theorem execEvs_pres (m : Machine) (evs : List Ev) : ∀ s : Sys,
    tickSafe false s.trace = true → (hasClear s.trace = true → s.timer = false) →
    tickSafe false (execEvs m evs s).trace = true := by
  induction evs with
  | nil => intro s h1 _; simpa [execEvs] using h1
  | cons e evs ih =>
    intro s h1 h2
    obtain ⟨h1b, h2b⟩ := execEv_pres m s e h1 h2
    simpa [execEvs] using ih (execEv m s e) h1b h2b

theorem execEvs_noop (m : Machine) (evs : List Ev) : ∀ s : Sys,
    s.handlers = false → s.timer = false → s.pending = [] →
    execEvs m evs s = s := by
  induction evs with
  | nil => intro s _ _ _; rfl
  | cons e evs ih =>
    intro s hh ht hp
    have hstep : execEv m s e = s := by
      cases e with
      | sigint => by_cases hx : s.exited.isSome <;> simp [execEv, hx, hh]
      | disconnect => by_cases hx : s.exited.isSome <;> simp [execEv, hx, hh]
      | tick => by_cases hx : s.exited.isSome <;> simp [execEv, hx, ht]
      | resolve i res =>
        by_cases hx : s.exited.isSome
        · simp [execEv, hx]
        · simp [execEv, hx, hp, pendAt]
    calc execEvs m (e :: evs) s = execEvs m evs (execEv m s e) := rfl
    _ = execEvs m evs s := by rw [hstep]
    _ = s := ih s hh ht hp

/-! # Claim theorems -/

/-- Claim C1: the claim says a second SIGINT/SIGTERM delivery after the
first shutdown has started must produce no second file write and no
second close of the session handle.  The code has no re-entrancy guard:
when the second signal arrives while the first handler is suspended at
`await context.storageState()` (caching variant), the full shutdown body
runs again — the trace of that schedule contains two file writes and two
`browser.close()` calls. -/
theorem c1_double_signal_duplicates_write_and_close :
    countWrites (execEvs cachingMachine
      [Ev.sigint, Ev.sigint,
       Ev.resolve 0 (Except.ok (Json.obj JsonFields.nil)),
       Ev.resolve 0 (Except.ok (Json.obj JsonFields.nil))]
      (initSys true true none none)).trace = 2 ∧
    countCloses (execEvs cachingMachine
      [Ev.sigint, Ev.sigint,
       Ev.resolve 0 (Except.ok (Json.obj JsonFields.nil)),
       Ev.resolve 0 (Except.ok (Json.obj JsonFields.nil))]
      (initSys true true none none)).trace = 2 := by
  exact ⟨rfl, rfl⟩

/-- Claim C2 (counterexample): in the direct variant (`src/index.js`),
`handleShutdown` never closes the session handle — a complete shutdown
(exit status 0) contains no close call, so the claimed six-step sequence
does not hold of every shutdown. -/
theorem c2_cex_direct_shutdown_has_no_close :
    hasClose (execEvs indexMachine
      [Ev.sigint, Ev.resolve 0 (Except.ok (Json.obj JsonFields.nil))]
      (initSys true true none none)).trace = false ∧
    (execEvs indexMachine
      [Ev.sigint, Ev.resolve 0 (Except.ok (Json.obj JsonFields.nil))]
      (initSys true true none none)).exited = some 0 := by
  exact ⟨rfl, rfl⟩

/-- Claim C2 (amended): in the caching variant the shutdown handler
performs exactly: stop the periodic refresh; attempt one final capture;
on failure fall back to the cached snapshot; persist; close the handle;
exit 0 — in that order.  The direct variant performs stop-refresh, a
combined capture-and-persist attempt, then exits 0 without closing the
handle (and keeps no cache to fall back to). -/
theorem c2_shutdown_sequence (fs gs : JsonFields) (c0 : Option Json)
    (f0 : Option (List Char)) :
    (execEvs cachingMachine
        [Ev.sigint, Ev.resolve 0 (Except.ok (Json.obj fs)), Ev.resolve 0 (Except.error ())]
        (initSys true true c0 f0)).trace
      = [Act.clearTimer, Act.logLine, Act.captureCall,
         Act.fileWrite (jsonStringify (Json.obj fs)), Act.closeCall, Act.exitCall 0] ∧
    (execEvs cachingMachine
        [Ev.sigint, Ev.resolve 0 (Except.error ()), Ev.resolve 0 (Except.error ())]
        (initSys true true (some (Json.obj gs)) f0)).trace
      = [Act.clearTimer, Act.logLine, Act.captureCall,
         Act.fileWrite (jsonStringify (Json.obj gs)), Act.closeCall, Act.exitCall 0] ∧
    (execEvs indexMachine
        [Ev.sigint, Ev.resolve 0 (Except.ok (Json.obj fs))]
        (initSys true true none f0)).trace
      = [Act.clearTimer, Act.logLine, Act.captureCall,
         Act.fileWrite (jsonStringify (Json.obj fs)), Act.logLine, Act.exitCall 0] := by
  exact ⟨rfl, rfl, rfl⟩

/-- Claim C3 (counterexample): the tokens `chrome` and `chromium` select
the same engine, yet their snapshot files differ
(`storage-state-chrome.json` vs `storage-state-chromium.json`), so file
identity is not derived from the selected engine name. -/
theorem c3_cex_same_engine_different_files :
    engineOfToken chromeTok = engineOfToken chromiumTok ∧
    storageFileName chromeTok ≠ storageFileName chromiumTok := by
  exact ⟨by decide, by decide⟩

/-- Claim C3 (amended): the snapshot file name is derived from the
lowercased command-line token, not from the engine: two tokens share a
snapshot file exactly when their lowercasings coincide, so distinct
tokens that select the same engine (such as `chrome`/`chromium`, or an
unrecognized token falling back to the default engine) use distinct
files. -/
theorem c3_file_name_keyed_by_token :
    (∀ tok, storageFileName tok = fileNamePre ++ lowerStr tok ++ fileNameSuf) ∧
    (∀ t1 t2, storageFileName t1 = storageFileName t2 ↔ lowerStr t1 = lowerStr t2) := by
  refine ⟨fun tok => rfl, fun t1 t2 => ⟨fun h => ?_, fun h => ?_⟩⟩
  · have h0 : fileNamePre ++ (lowerStr t1 ++ fileNameSuf)
        = fileNamePre ++ (lowerStr t2 ++ fileNameSuf) := by
      simpa [storageFileName, List.append_assoc] using h
    exact List.append_cancel_right (List.append_cancel_left h0)
  · simp [storageFileName, h]

/-- Claim C4 (counterexample): in the direct variant the startup load
does not parse at all — with the flag set and an existing file whose
contents are the invalid JSON document `{`, the load hands the *path*
over (not "absent") and emits zero diagnostics. -/
theorem c4_cex_direct_load_not_absent :
    (loadIndexStartup true true ['{'] chromeTok).1 ≠ none ∧
    (loadIndexStartup true true ['{'] chromeTok).2 = 0 ∧
    jsonParse ['{'] = none := by
  exact ⟨by decide, rfl, rfl⟩

/-- Claim C4 (amended): in the caching variant, a snapshot file that
exists but contains invalid JSON makes `loadIfPresent` return "absent",
emit exactly one diagnostic, and leave the file contents untouched; the
load path never throws (it is a total function).  In the direct variant
the file is not parsed at load: the path is handed to the library with
no diagnostic, and the invalid content only surfaces later when the
library creates the context. -/
theorem c4_caching_load_invalid_json (s : List Char) (h : jsonParse s = none) :
    loadIfPresent (some s)
      = { state := none, diagnostics := 1, fileAfter := some s } := by
  simp [loadIfPresent, h]

/-- Witness for C4 at the concrete invalid document `{`. -/
theorem c4_witness :
    jsonParse ['{'] = none ∧
    loadIfPresent (some ['{'])
      = { state := none, diagnostics := 1, fileAfter := some ['{'] } :=
  ⟨rfl, c4_caching_load_invalid_json ['{'] rfl⟩

/-- Claim C5: in both variants the shutdown handler calls
`clearInterval` strictly before attempting the final capture (the
single-delivery trace is `clearTimer, log, captureCall` in that order),
and over every schedule of events, once a `clearInterval` has occurred
no periodic tick ever fires afterwards, so the periodic writer cannot
race the shutdown writer. -/
theorem c5_refresh_cancelled_before_final_capture
    (c0 : Option Json) (f0 : Option (List Char)) :
    (execEvs cachingMachine [Ev.sigint] (initSys true true c0 f0)).trace
      = [Act.clearTimer, Act.logLine, Act.captureCall] ∧
    (execEvs indexMachine [Ev.sigint] (initSys true true c0 f0)).trace
      = [Act.clearTimer, Act.logLine, Act.captureCall] ∧
    (∀ evs, tickSafe false (execEvs cachingMachine evs (initSys true true c0 f0)).trace
      = true) ∧
    (∀ evs, tickSafe false (execEvs indexMachine evs (initSys true true c0 f0)).trace
      = true) := by
  refine ⟨rfl, rfl, fun evs => ?_, fun evs => ?_⟩
  · exact execEvs_pres cachingMachine evs (initSys true true c0 f0) rfl
      (fun h => Bool.noConfusion h)
  · exact execEvs_pres indexMachine evs (initSys true true c0 f0) rfl
      (fun h => Bool.noConfusion h)

/-- Claim C6: a capture failure during a periodic refresh tick is
swallowed: in both variants the tick's error branch leaves the cache and
the file unchanged, performs no write, does not exit the process, and
leaves the timer running (the session continues). -/
theorem c6_refresh_failure_swallowed (c0 : Option Json) (f0 : Option (List Char)) :
    ((execEvs cachingMachine [Ev.tick, Ev.resolve 0 (Except.error ())]
        (initSys true true c0 f0)).cache = c0 ∧
     (execEvs cachingMachine [Ev.tick, Ev.resolve 0 (Except.error ())]
        (initSys true true c0 f0)).file = f0 ∧
     (execEvs cachingMachine [Ev.tick, Ev.resolve 0 (Except.error ())]
        (initSys true true c0 f0)).exited = none ∧
     (execEvs cachingMachine [Ev.tick, Ev.resolve 0 (Except.error ())]
        (initSys true true c0 f0)).timer = true ∧
     countWrites (execEvs cachingMachine [Ev.tick, Ev.resolve 0 (Except.error ())]
        (initSys true true c0 f0)).trace = 0) ∧
    ((execEvs indexMachine [Ev.tick, Ev.resolve 0 (Except.error ())]
        (initSys true true c0 f0)).file = f0 ∧
     (execEvs indexMachine [Ev.tick, Ev.resolve 0 (Except.error ())]
        (initSys true true c0 f0)).exited = none ∧
     (execEvs indexMachine [Ev.tick, Ev.resolve 0 (Except.error ())]
        (initSys true true c0 f0)).timer = true ∧
     countWrites (execEvs indexMachine [Ev.tick, Ev.resolve 0 (Except.error ())]
        (initSys true true c0 f0)).trace = 0) := by
  exact ⟨⟨rfl, rfl, rfl, rfl, rfl⟩, ⟨rfl, rfl, rfl, rfl⟩⟩

/-- Claim C7: round trip — writing a (truthy) snapshot object with
`writeStorageToFile` and loading the file back with the caching
variant's startup load yields a value structurally equal to the
original. -/
theorem c7_round_trip (fs : JsonFields) (f0 : Option (List Char)) :
    (loadIfPresent (writeStorageToFile (some (Json.obj fs)) f0)).state
      = some (Json.obj fs) := by
  have h := jsonParse_stringify (Json.obj fs)
  simp [writeStorageToFile, truthy, loadIfPresent, h]

/-- Claim C8: with the `--with-storage` flag absent, the direct
variant's `main` never consults `existsSync`, passes no storage state to
the context, installs no persistence (no interval, no signal handlers),
and consequently no schedule of events can read or write the snapshot
file or change the state at all. -/
theorem c8_flag_absent_no_persistence (argv : List (List Char)) (ex : Bool)
    (f0 : Option (List Char)) (evs : List Ev) (h : hasStorageFlag argv = false) :
    (mainIndexStartup argv ex).existsChecked = false ∧
    (mainIndexStartup argv ex).storagePathOpt = none ∧
    (mainIndexStartup argv ex).persistenceInstalled = false ∧
    execEvs indexMachine evs (initSys false false none f0) = initSys false false none f0 := by
  refine ⟨?_, ?_, ?_, execEvs_noop indexMachine evs (initSys false false none f0) rfl rfl rfl⟩
  · simp [mainIndexStartup, h]
  · simp [mainIndexStartup, h]
  · simp [mainIndexStartup, h]

/-- Witness for C8: the flag-free command line `node index.js chrome`. -/
theorem c8_witness :
    (mainIndexStartup [chromeTok] true).existsChecked = false ∧
    (mainIndexStartup [chromeTok] true).storagePathOpt = none ∧
    (mainIndexStartup [chromeTok] true).persistenceInstalled = false ∧
    execEvs indexMachine [Ev.sigint] (initSys false false none none)
      = initSys false false none none :=
  c8_flag_absent_no_persistence [chromeTok] true none [Ev.sigint] (by decide)

/-- Claim C9: the browser `disconnected` event cancels the periodic
refresh in both variants; the caching variant additionally flushes the
cached snapshot to the file and exits with status 0, while the direct
variant only cancels the timer and the process keeps running. -/
theorem c9_disconnected_behaviour (fs : JsonFields) (c0 : Option Json)
    (f0 : Option (List Char)) :
    ((execEvs cachingMachine [Ev.disconnect]
        (initSys true true (some (Json.obj fs)) f0)).trace
      = [Act.clearTimer, Act.logLine,
         Act.fileWrite (jsonStringify (Json.obj fs)), Act.exitCall 0] ∧
     (execEvs cachingMachine [Ev.disconnect]
        (initSys true true (some (Json.obj fs)) f0)).exited = some 0 ∧
     (execEvs cachingMachine [Ev.disconnect]
        (initSys true true (some (Json.obj fs)) f0)).file
      = some (jsonStringify (Json.obj fs)) ∧
     (execEvs cachingMachine [Ev.disconnect]
        (initSys true true (some (Json.obj fs)) f0)).timer = false) ∧
    ((execEvs indexMachine [Ev.disconnect] (initSys true true c0 f0)).trace
      = [Act.clearTimer] ∧
     (execEvs indexMachine [Ev.disconnect] (initSys true true c0 f0)).exited = none ∧
     (execEvs indexMachine [Ev.disconnect] (initSys true true c0 f0)).file = f0 ∧
     (execEvs indexMachine [Ev.disconnect] (initSys true true c0 f0)).timer = false) := by
  exact ⟨⟨rfl, rfl, rfl, rfl⟩, ⟨rfl, rfl, rfl, rfl⟩⟩

/-- Claim C10: engine selection and file naming both factor through the
lowercased token, so differently-cased spellings of one token select the
same engine and share one snapshot file; concretely `Chrome`, `CHROME`
and `chrome` all select the chromium engine and the same file. -/
theorem c10_engine_selection_case_insensitive :
    (∀ t1 t2, lowerStr t1 = lowerStr t2 →
      engineOfToken t1 = engineOfToken t2 ∧ storageFileName t1 = storageFileName t2) ∧
    engineOfToken ['C', 'h', 'r', 'o', 'm', 'e'] = Engine.chromium ∧
    engineOfToken ['C', 'H', 'R', 'O', 'M', 'E'] = Engine.chromium ∧
    engineOfToken chromeTok = Engine.chromium ∧
    storageFileName ['C', 'h', 'r', 'o', 'm', 'e'] = storageFileName chromeTok ∧
    storageFileName ['C', 'H', 'R', 'O', 'M', 'E'] = storageFileName chromeTok := by
  refine ⟨fun t1 t2 h => ⟨?_, ?_⟩, by decide, by decide, by decide, by decide, by decide⟩
  · simp [engineOfToken, h]
  · simp [storageFileName, h]

/-- Witness for C10 at the concrete spellings `Chrome` and `chrome`. -/
theorem c10_witness :
    engineOfToken ['C', 'h', 'r', 'o', 'm', 'e'] = engineOfToken chromeTok ∧
    storageFileName ['C', 'h', 'r', 'o', 'm', 'e'] = storageFileName chromeTok :=
  c10_engine_selection_case_insensitive.1 ['C', 'h', 'r', 'o', 'm', 'e'] chromeTok (by decide)
